import Mathlib

/-!
Shallow embedding of the pcloud backend of nigelterry/restic:
`internal/backend/pcloud/pcloud.go`, `internal/backend/pcloud/config.go`
(two variants) and `internal/backend/layout_pcloud.go`.

Go strings are modelled by `String` (char-level; all constants involved are
ASCII, so byte slicing and char slicing agree), byte streams by `List Nat`,
errors by the inductive `GoError`, the filesystem reached through the `fs`
package by an explicit state `FS`, and `context.Context` by `GoCtx` holding
the value `ctx.Err()` would return.
-/

/-- Errors as produced by the Go code: `os` sentinel conditions, message
errors from `errors.New`, and `errors.Wrap` which keeps its cause. -/
inductive GoError where
  | notExist : GoError
  | exist : GoError
  | canceled : GoError
  | msg : String → GoError
  | wrap : String → GoError → GoError
deriving DecidableEq, Repr

instance {ε α : Type} [DecidableEq ε] [DecidableEq α] : DecidableEq (Except ε α) :=
  fun a b =>
    match a, b with
    | .ok x, .ok y =>
      if h : x = y then isTrue (by rw [h]) else isFalse (by intro hc; injection hc; contradiction)
    | .error x, .error y =>
      if h : x = y then isTrue (by rw [h]) else isFalse (by intro hc; injection hc; contradiction)
    | .ok _, .error _ => isFalse (by intro hc; cases hc)
    | .error _, .ok _ => isFalse (by intro hc; cases hc)

/-- Model of `errors.Cause`: unwraps `errors.Wrap` layers. -/
def GoError.cause : GoError → GoError
  | .wrap _ e => e.cause
  | e => e

/-- Model of `os.IsNotExist` on an already-unwrapped error. -/
def GoError.isNotExist (e : GoError) : Bool := e = GoError.notExist

/-- Model of `restic.FileType`. Modelled from the spec: `FileType ∈ {Config,
Data/Pack, Index, Snapshot, Key, Lock}` (the `restic` package is not under
`src/`). -/
inductive FileType where
  | ConfigFile : FileType
  | DataFile : FileType
  | SnapshotFile : FileType
  | IndexFile : FileType
  | KeyFile : FileType
  | LockFile : FileType
deriving DecidableEq, Repr

/-- Model of `restic.Handle`: a (file type, name) pair. -/
structure Handle where
  «Type» : FileType
  Name : String
deriving DecidableEq, Repr

/-- Model of `restic.Handle.Valid`. Modelled from the spec: "handles must be
validated (non-empty name except for Config) before use" (the `restic`
package is not under `src/`; unknown file types are unrepresentable in the
spec's finite file-type set). Returns the error, `none` meaning valid. -/
def Handle.Valid (h : Handle) : Option GoError :=
  if h.«Type» ≠ FileType.ConfigFile ∧ h.Name = "" then
    some (GoError.msg "invalid Name")
  else
    none

/-- Model of `restic.FileInfo` as used by the pcloud backend: `{Size, Name}`.
Sizes are byte counts of stored contents, hence `Nat`. -/
structure FileInfo where
  Size : Nat
  Name : String
deriving DecidableEq, Repr

/-! ### Go `path.Join` / `path.Clean`, char-level

`backend.PcloudFilesystem` is not under `src/`; its `Join` is modelled from
the spec ("translating an abstract handle into a backend-specific path/key
string") as Go's `path.Join`: drop leading empty elements, join the rest
with `/`, then lexically clean the result. -/

/-- Split a character list on `/` (every occurrence; `splitSl [] = [[]]`). -/
def splitSl : List Char → List (List Char)
  | [] => [[]]
  | c :: cs =>
    if c = '/' then [] :: splitSl cs
    else
      match splitSl cs with
      | [] => [[c]]
      | s :: ss => (c :: s) :: ss

/-- Join segments with `/` separators. -/
def joinChars : List (List Char) → List Char
  | [] => []
  | [x] => x
  | x :: xs => x ++ '/' :: joinChars xs

/-- One step of lexical path cleaning: `..` pops a previous segment (kept
when there is nothing to pop in a relative path, dropped at a root), any
other segment is pushed. The stack holds segments in reverse order. -/
def cleanStepChars (rooted : Bool) (stack : List (List Char)) (seg : List Char) : List (List Char) :=
  if seg = ['.', '.'] then
    match stack with
    | [] => if rooted then [] else [seg]
    | top :: rest => if top = ['.', '.'] then seg :: stack else rest
  else
    seg :: stack

/-- Go `path.Clean`, segment-wise: drop empty and `.` segments, resolve
`..` lexically, re-join. -/
def cleanChars (l : List Char) : List Char :=
  let rooted : Bool := l.head? = some '/'
  let stack := ((splitSl l).filter (fun s => !s.isEmpty && !(s = ['.'] : Bool))).foldl
    (cleanStepChars rooted) []
  if stack.isEmpty then (if rooted then ['/'] else ['.'])
  else (if rooted then ['/'] else []) ++ joinChars stack.reverse

/-- Go `path.Join` over a list of elements (variadic in Go). -/
def goPathJoin (elems : List String) : String :=
  let es := elems.dropWhile (fun e => e = "")
  if es.isEmpty then ""
  else String.mk (cleanChars (joinChars (es.map String.data)))


/-! ### `internal/backend/layout_pcloud.go` -/

/-- Model of `backend.PcloudLayout`: URL and Path strings plus a join function
(variadic in Go, a list here). -/
structure PcloudLayout where
  URL : String
  Path : String
  Join : List String → String

/-- Model of `defaultLayoutPaths`, referenced by `layout_pcloud.go` but defined
outside `src/`. Modelled from the spec: one subdirectory per non-config
file type; the map has no Config entry, so a Config lookup yields the Go
zero value `""`. -/
def pcloudLayoutPaths : FileType → String
  | FileType.ConfigFile => ""
  | FileType.DataFile => "data"
  | FileType.SnapshotFile => "snapshots"
  | FileType.IndexFile => "index"
  | FileType.KeyFile => "keys"
  | FileType.LockFile => "locks"

/-- The file types `defaultLayoutPaths` holds entries for, in the fixed
order the model uses for map iteration. -/
def pcloudLayoutTypes : List FileType :=
  [FileType.DataFile, FileType.SnapshotFile, FileType.IndexFile,
   FileType.KeyFile, FileType.LockFile]

/-- Model of `PcloudLayout.Dirname`. -/
def PcloudLayout.Dirname (l : PcloudLayout) (h : Handle) : String :=
  if h.«Type» = FileType.ConfigFile then
    l.URL ++ l.Join [l.Path, "/"]
  else
    l.URL ++ l.Join [l.Path, "/", pcloudLayoutPaths h.«Type»] ++ "/"

/-- Model of `PcloudLayout.Filename`: path to the file for handle `h`; a Config
handle's name is replaced by the fixed name `config`. -/
def PcloudLayout.Filename (l : PcloudLayout) (h : Handle) : String :=
  let name := if h.«Type» = FileType.ConfigFile then "config" else h.Name
  l.URL ++ l.Join [l.Path, "/", pcloudLayoutPaths h.«Type», name]

/-- Model of `PcloudLayout.Paths`: all directory names (one per map entry). -/
def PcloudLayout.Paths (l : PcloudLayout) : List String :=
  pcloudLayoutTypes.map (fun p => l.URL ++ l.Join [l.Path, pcloudLayoutPaths p])

/-- Model of `PcloudLayout.Basedir`: base directory for files of type `t` and
whether files of that type live in subdirectories (always `false`). -/
def PcloudLayout.Basedir (l : PcloudLayout) (t : FileType) : String × Bool :=
  (l.URL ++ l.Join [l.Path, pcloudLayoutPaths t], false)

/-! ### `internal/backend/pcloud/config.go`, first variant -/

/-- Model of `pcloud.Config` (first variant of `config.go`; the `url.URL` field is
kept as its string). -/
structure Config where
  URL : String
  Path : String
  Layout : String
  UserName : String
  Password : String
  AuthToken : String
  Connections : Nat
deriving DecidableEq, Repr

/-- Model of `pcloud.NewConfig`: default values. -/
def NewConfig : Config :=
  { URL := "https://api.pcloud.com", Path := "", Layout := "",
    UserName := "", Password := "", AuthToken := "", Connections := 20 }

/-- Split a character list at the first `:`, if any. -/
def splitOnceColon : List Char → Option (List Char × List Char)
  | [] => none
  | c :: cs =>
    if c = ':' then some ([], cs)
    else (splitOnceColon cs).map (fun p => (c :: p.1, p.2))

/-- Go `strings.SplitN(s, ":", 3)`: at most three fields, the last keeps
any further colons. -/
def goSplitN3 (l : List Char) : List (List Char) :=
  match splitOnceColon l with
  | none => [l]
  | some (a, r) =>
    match splitOnceColon r with
    | none => [a, r]
    | some (b, c) => [a, b, c]

/-- Model of `ParseConfig`, first variant: requires the `pcloud:` prefix and three
colon-separated fields `Username:Password:Path` after it. -/
def ParseConfig (s : String) : Except GoError Config :=
  if "pcloud:".data.isPrefixOf s.data then
    match goSplitN3 (s.data.drop 7) with
    | [u, p, pa] =>
      Except.ok { NewConfig with
                    UserName := String.mk u, Password := String.mk p,
                    Path := String.mk pa }
    | _ => Except.error (GoError.msg "pcloud: invalid format: needs Username:Password:Path")
  else
    Except.error (GoError.msg "invalid format, prefix pcloud not found")

/-- Model of `pcloud.Config` (second variant of `config.go`). -/
structure Config2 where
  Path : String
  Layout : String
deriving DecidableEq, Repr

/-- Model of `ParseConfig`, second variant: requires the `pcloud:` prefix and takes
everything from byte 6 on (the remainder including the colon) as `Path`. -/
def ParseConfig2 (s : String) : Except GoError Config2 :=
  if "pcloud:".data.isPrefixOf s.data then
    Except.ok { Path := String.mk (s.data.drop 6), Layout := "" }
  else
    Except.error (GoError.msg "invalid format, prefix pcloud not found")


/-! ### Filesystem state and the `fs`/`os` calls the backend makes

The `fs` package is not under `src/`; it thinly wraps the OS. Modelled
from the spec's backend contract as an explicit state: a flat map from
path to byte content plus a set of existing directories. -/

/-- Filesystem state: files (path, content in bytes) and directories. -/
structure FS where
  files : List (String × List Nat)
  dirs : List String
deriving DecidableEq, Repr

/-- Content of the file at `p`, if it exists. -/
def FS.lookupFile (st : FS) (p : String) : Option (List Nat) :=
  (st.files.find? (fun e => e.1 = p)).map (fun e => e.2)

/-- Does a file exist at `p`? -/
def FS.hasFile (st : FS) (p : String) : Bool :=
  (st.lookupFile p).isSome

/-- Does a directory exist at `p`? -/
def FS.hasDir (st : FS) (p : String) : Bool :=
  st.dirs.contains p

/-- Create the file at `p` with content `c` (`fs.OpenFile` + `io.Copy` +
`Sync` + `Close` on the happy path). -/
def FS.addFile (st : FS) (p : String) (c : List Nat) : FS :=
  { st with files := (p, c) :: st.files }

/-- Remove the file at `p` (`fs.Remove`). -/
def FS.removeFile (st : FS) (p : String) : FS :=
  { st with files := st.files.filter (fun e => !(e.1 = p : Bool)) }

/-- Model of `os.MkdirAll`: record the directory (never fails in the model). -/
def FS.addDir (st : FS) (p : String) : FS :=
  { st with dirs := p :: st.dirs }

/-- Model of `fs.MkdirAll` over a list of directories (`Create`'s loop). -/
def FS.addDirs (st : FS) (ps : List String) : FS :=
  ps.foldl (fun acc p => acc.addDir p) st

/-- Model of `fs.Lstat`/`fs.Stat` success: something (file or directory) exists at
`p`. -/
def FS.pathExists (st : FS) (p : String) : Bool :=
  st.hasFile p || st.hasDir p

/-- Model of `filepath.Dir`: everything before the last `/` (the parent directory
that `Save` creates when `OpenFile` fails with not-exist). -/
def dirOf (p : String) : String :=
  String.mk ((p.data.reverse.dropWhile (fun c => c ≠ '/')).drop 1).reverse

/-- Model of `filepath.Base`: the part after the last `/`. -/
def baseOf (p : String) : String :=
  String.mk (p.data.reverse.takeWhile (fun c => c ≠ '/')).reverse


/-- Model of `context.Context`, reduced to what the code observes: the value
`ctx.Err()` returns (`some` a cancellation error once the context is
cancelled, `none` otherwise). -/
structure GoCtx where
  err : Option GoError
deriving DecidableEq, Repr

/-- A context whose cancellation signal is already set. -/
def canceledCtx : GoCtx := ⟨some GoError.canceled⟩

/-- A context that is never cancelled. -/
def backgroundCtx : GoCtx := ⟨none⟩

/-! ### `internal/backend/pcloud/pcloud.go` -/

/-- Model of `pcloud.Pcloud`: the config together with the layout chosen by
`backend.ParseLayout`. -/
structure Pcloud where
  Config : Config
  Layout : PcloudLayout

/-- Model of `Pcloud.Filename` through the embedded layout. -/
def Pcloud.Filename (b : Pcloud) (h : Handle) : String :=
  b.Layout.Filename h

/-- Model of `backend.ParseLayout`. Modelled from the spec: the layout is "selected
by auto-detection or explicit configuration"; `""` (auto-detect) and the
`defaultLayout` name `"default"` yield the pcloud layout over the
configured path, any other name is a `ConfigError` (`ParseLayout` itself
is not under `src/`). -/
def ParseLayout (layout : String) (path : String) : Except GoError PcloudLayout :=
  if layout = "" ∨ layout = "default" then
    Except.ok { URL := "", Path := path, Join := goPathJoin }
  else
    Except.error (GoError.msg "unknown backend layout")

/-- Model of `pcloud.Open`: parse the layout and build the backend value. The
filesystem state is not touched. -/
def pcloudOpen (cfg : Config) : Except GoError Pcloud :=
  match ParseLayout cfg.Layout cfg.Path with
  | Except.error e => Except.error e
  | Except.ok l => Except.ok { Config := cfg, Layout := l }

/-- Model of `pcloud.Create`: parse the layout, fail if a config file already
exists at the layout's config filename (`fs.Lstat` succeeding), otherwise
create every directory of `Paths()`. Returns the Go `(be, err)` pair as an
`Except` plus the resulting filesystem state. -/
def pcloudCreate (cfg : Config) (st : FS) : Except GoError Pcloud × FS :=
  match ParseLayout cfg.Layout cfg.Path with
  | Except.error e => (Except.error e, st)
  | Except.ok l =>
    let be : Pcloud := { Config := cfg, Layout := l }
    if st.pathExists (be.Filename { «Type» := FileType.ConfigFile, Name := "" }) then
      (Except.error (GoError.msg "config file already exists"), st)
    else
      (Except.ok be, st.addDirs be.Layout.Paths)

/-- Model of `Pcloud.Save`: validate the handle, open the file with
`O_CREATE|O_EXCL` (exists ⇒ `EEXIST`; parent directory missing ⇒
not-exist, retried once after `os.MkdirAll` of the parent), then copy the
reader's bytes, sync, close and chmod. The context is never consulted. -/
def pcloudSave (_ctx : GoCtx) (b : Pcloud) (h : Handle) (rd : List Nat) (st : FS) :
    Option GoError × FS :=
  match h.Valid with
  | some e => (some e, st)
  | none =>
    let filename := b.Filename h
    if st.hasFile filename then
      (some (GoError.wrap "OpenFile" GoError.exist), st)
    else if st.hasDir (dirOf filename) then
      (none, st.addFile filename rd)
    else
      (none, ((st.addDir (dirOf filename)).addFile filename rd))

/-- Model of `Pcloud.Load`: validate the handle, reject negative offsets, open the
file, seek to `offset` and limit to `length` bytes when `length > 0`. The
returned reader is modelled by the byte list it yields. The context is
never consulted. -/
def pcloudLoad (_ctx : GoCtx) (b : Pcloud) (h : Handle) (length : Int) (offset : Int)
    (st : FS) : Except GoError (List Nat) :=
  match h.Valid with
  | some e => Except.error e
  | none =>
    if offset < 0 then Except.error (GoError.msg "offset is negative")
    else
      match st.lookupFile (b.Filename h) with
      | none => Except.error GoError.notExist
      | some c =>
        let c := c.drop offset.toNat
        if length > 0 then Except.ok (c.take length.toNat) else Except.ok c

/-- Model of `Pcloud.Stat`: validate the handle, `fs.Stat` the filename; on success
return `{Size, Name}`, otherwise the zero `FileInfo` with the error (Go's
`(restic.FileInfo{}, err)` pair). The context is never consulted. -/
def pcloudStat (_ctx : GoCtx) (b : Pcloud) (h : Handle) (st : FS) :
    FileInfo × Option GoError :=
  match h.Valid with
  | some e => ({ Size := 0, Name := "" }, some e)
  | none =>
    match st.lookupFile (b.Filename h) with
    | none => ({ Size := 0, Name := "" }, some (GoError.wrap "Stat" GoError.notExist))
    | some c => ({ Size := c.length, Name := h.Name }, none)

/-- Model of `Pcloud.Test`: `fs.Stat` the filename (no handle validation in the
code); a not-exist failure is recovered as `(false, nil)`, success is
`(true, nil)`. The context is never consulted. -/
def pcloudTest (_ctx : GoCtx) (b : Pcloud) (h : Handle) (st : FS) :
    Bool × Option GoError :=
  match st.lookupFile (b.Filename h) with
  | none => (false, none)
  | some _ => (true, none)

/-- Model of `Pcloud.Remove`: `fs.Chmod` then `fs.Remove` of the filename (no
handle validation in the code); chmod of a missing file fails with a
wrapped not-exist error. The context is never consulted. -/
def pcloudRemove (_ctx : GoCtx) (b : Pcloud) (h : Handle) (st : FS) :
    Option GoError × FS :=
  let fn := b.Filename h
  if st.hasFile fn then (none, st.removeFile fn)
  else (some (GoError.wrap "Chmod" GoError.notExist), st)

/-- Is `p` a path strictly under directory `dir` (i.e. `dir ++ "/" ++ …`)? -/
def underDir (dir p : String) : Bool :=
  (dir ++ "/").data.isPrefixOf p.data

/-- Lexicographic order on character lists (the order `filepath.Walk`
visits names in). -/
def leChars : List Char → List Char → Bool
  | [], _ => true
  | _ :: _, [] => false
  | a :: as, b :: bs => if a = b then leChars as bs else decide (a < b)

/-- Insert an entry into a path-sorted list of directory entries. -/
def insertByPath (e : String × List Nat) :
    List (String × List Nat) → List (String × List Nat)
  | [] => [e]
  | x :: xs => if leChars e.1.data x.1.data then e :: x :: xs else x :: insertByPath e xs

/-- Sort directory entries by path (insertion sort). -/
def sortByPath (l : List (String × List Nat)) : List (String × List Nat) :=
  l.foldr insertByPath []

/-- The files `filepath.Walk` reaches below `basedir`, in lexical order
(`fs.Walk` is not under `src/`; modelled from Go's `filepath.Walk`:
a depth-first walk visiting names in sorted order — on our flat state the
files under the base directory sorted by path). -/
def walkFiles (st : FS) (basedir : String) : List (String × List Nat) :=
  sortByPath (st.files.filter (fun e => underDir basedir e.1))

/-- The `restic.FileInfo` the walk callback builds for a walked file. -/
def walkInfo (e : String × List Nat) : FileInfo :=
  { Size := e.2.length, Name := baseOf e.1 }

/-- The walk callback of `Pcloud.List`, folded over the walked files with
early exit; returns the outcome and the trace of files handed to `fn`
(instrumentation: in Go `fn` is called for effect). Per file: the context
is checked, then `fn` runs, then the context is checked again. -/
def pcloudListGo (ctx : GoCtx) (fn : FileInfo → Option GoError) :
    List (String × List Nat) → Option GoError × List FileInfo
  | [] => (none, [])
  | e :: rest =>
    let rfi := walkInfo e
    match ctx.err with
    | some err => (some err, [])
    | none =>
      match fn rfi with
      | some err => (some err, [rfi])
      | none =>
        match ctx.err with
        | some err => (some err, [rfi])
        | none =>
          let r := pcloudListGo ctx fn rest
          (r.1, rfi :: r.2)

/-- Model of `Pcloud.List`: walk the base directory for type `t`, calling `fn` on
every file; a failing walk root (missing base directory) surfaces its
`Lstat` error; the basedir entry itself and directories are skipped by the
callback. Returns the outcome and the trace of `FileInfo`s passed to
`fn`. -/
def pcloudList (ctx : GoCtx) (b : Pcloud) (t : FileType)
    (fn : FileInfo → Option GoError) (st : FS) : Option GoError × List FileInfo :=
  let basedir := (b.Layout.Basedir t).1
  if st.hasDir basedir then pcloudListGo ctx fn (walkFiles st basedir)
  else if st.hasFile basedir then (none, [])
  else (some GoError.notExist, [])

/-! ### Concrete fixtures used by witnesses and counterexamples -/

/-- A concrete layout over path `repo` with the modelled Go join. -/
def repoLayout : PcloudLayout := { URL := "", Path := "repo", Join := goPathJoin }

/-- A concrete backend value over `repoLayout`. -/
def repoBackend : Pcloud := { Config := NewConfig, Layout := repoLayout }

/-- A concrete valid data handle. -/
def hX : Handle := { «Type» := FileType.DataFile, Name := "x" }

/-- A concrete invalid handle: empty name, non-config type. -/
def hNoName : Handle := { «Type» := FileType.DataFile, Name := "" }

/-- Repository state with an empty data directory. -/
def fsEmptyRepo : FS := { files := [], dirs := ["repo/data"] }

/-- Repository state holding two data files. -/
def fsTwoFiles : FS :=
  { files := [("repo/data/x", [1, 2, 3]), ("repo/data/a", [7])], dirs := ["repo/data"] }

/-! ### Helper lemmas -/

theorem FS.lookupFile_addFile (st : FS) (p : String) (c : List Nat) :
    (st.addFile p c).lookupFile p = some c := by
  simp [FS.addFile, FS.lookupFile, List.find?]

/-- C3: `Test(h)` reports plain existence: it returns `(true, nil)` when an
object is stored at the handle's filename and `(false, nil)` when none is
(the not-found condition is recovered locally, not surfaced); no other
failure exists in the filesystem model, so no error is ever returned. -/
theorem C3_test_reports_existence (ctx : GoCtx) (b : Pcloud) (h : Handle) (st : FS) :
    pcloudTest ctx b h st = (st.hasFile (b.Filename h), none) := by
  unfold pcloudTest FS.hasFile
  cases st.lookupFile (b.Filename h) <;> simp

theorem C3_witness :
    pcloudTest backgroundCtx repoBackend hX fsTwoFiles =
      (fsTwoFiles.hasFile (repoBackend.Filename hX), none) :=
  C3_test_reports_existence backgroundCtx repoBackend hX fsTwoFiles

/-- C8: for a valid handle whose object exists, `Stat` returns the stored
object's byte length as `Size` and the handle's `Name`, with no error; for
an invalid handle, or a valid handle with no stored object, it returns the
zero `FileInfo` together with an error. -/
theorem C8_stat_returns_size_and_name :
    (∀ (ctx : GoCtx) (b : Pcloud) (h : Handle) (st : FS) (c : List Nat),
       h.Valid = none → st.lookupFile (b.Filename h) = some c →
       pcloudStat ctx b h st = ({ Size := c.length, Name := h.Name }, none)) ∧
    (∀ (ctx : GoCtx) (b : Pcloud) (h : Handle) (st : FS) (e : GoError),
       h.Valid = some e →
       pcloudStat ctx b h st = ({ Size := 0, Name := "" }, some e)) ∧
    (∀ (ctx : GoCtx) (b : Pcloud) (h : Handle) (st : FS),
       h.Valid = none → st.lookupFile (b.Filename h) = none →
       ∃ e, pcloudStat ctx b h st = ({ Size := 0, Name := "" }, some e)) := by
  refine ⟨?_, ?_, ?_⟩
  · intro ctx b h st c hv hc
    simp [pcloudStat, hv, hc]
  · intro ctx b h st e hv
    simp [pcloudStat, hv]
  · intro ctx b h st hv hc
    exact ⟨GoError.wrap "Stat" GoError.notExist, by simp [pcloudStat, hv, hc]⟩

theorem C8_witness :
    pcloudStat backgroundCtx repoBackend hX fsTwoFiles =
      ({ Size := 3, Name := "x" }, none) ∧
    pcloudStat backgroundCtx repoBackend hNoName fsTwoFiles =
      ({ Size := 0, Name := "" }, some (GoError.msg "invalid Name")) :=
  ⟨C8_stat_returns_size_and_name.1 backgroundCtx repoBackend hX fsTwoFiles
      [1, 2, 3] (by decide) (by decide),
   C8_stat_returns_size_and_name.2.1 backgroundCtx repoBackend hNoName fsTwoFiles
      (GoError.msg "invalid Name") (by decide)⟩

/-- C9: for a valid handle, `Load` rejects every negative offset with an
error; with a stored object of content `c`, offset `off ≥ 0` and length
`> 0` it yields exactly the bytes of `c` from position `off`, at most
`length` of them; with length `0` it yields the whole remainder of `c`
from `off`. -/
theorem C9_load_offset_and_length :
    (∀ (ctx : GoCtx) (b : Pcloud) (h : Handle) (len off : Int) (st : FS),
       h.Valid = none → off < 0 →
       pcloudLoad ctx b h len off st = Except.error (GoError.msg "offset is negative")) ∧
    (∀ (ctx : GoCtx) (b : Pcloud) (h : Handle) (len off : Int) (st : FS) (c : List Nat),
       h.Valid = none → 0 ≤ off → 0 < len →
       st.lookupFile (b.Filename h) = some c →
       pcloudLoad ctx b h len off st = Except.ok ((c.drop off.toNat).take len.toNat) ∧
         ((c.drop off.toNat).take len.toNat).length ≤ len.toNat) ∧
    (∀ (ctx : GoCtx) (b : Pcloud) (h : Handle) (off : Int) (st : FS) (c : List Nat),
       h.Valid = none → 0 ≤ off →
       st.lookupFile (b.Filename h) = some c →
       pcloudLoad ctx b h 0 off st = Except.ok (c.drop off.toNat)) := by
  refine ⟨?_, ?_, ?_⟩
  · intro ctx b h len off st hv hoff
    simp [pcloudLoad, hv, hoff]
  · intro ctx b h len off st c hv hoff hlen hc
    constructor
    · simp [pcloudLoad, hv, hc, not_lt.mpr hoff, hlen]
    · exact le_trans (List.length_take_le _ _) (le_refl _)
  · intro ctx b h off st c hv hoff hc
    simp [pcloudLoad, hv, hc, not_lt.mpr hoff]

theorem C9_witness :
    pcloudLoad backgroundCtx repoBackend hX 2 (-1) fsTwoFiles =
      Except.error (GoError.msg "offset is negative") ∧
    pcloudLoad backgroundCtx repoBackend hX 2 1 fsTwoFiles = Except.ok [2, 3] ∧
    pcloudLoad backgroundCtx repoBackend hX 0 1 fsTwoFiles = Except.ok [2, 3] :=
  ⟨C9_load_offset_and_length.1 backgroundCtx repoBackend hX 2 (-1) fsTwoFiles
      (by decide) (by decide),
   (C9_load_offset_and_length.2.1 backgroundCtx repoBackend hX 2 1 fsTwoFiles
      [1, 2, 3] (by decide) (by decide) (by decide) (by decide)).1,
   C9_load_offset_and_length.2.2 backgroundCtx repoBackend hX 1 fsTwoFiles
      [1, 2, 3] (by decide) (by decide) (by decide)⟩

/-- C5: `Save` never mutates a stored object: whenever a file already
exists at the filename derived from the handle, `Save` returns an error
(`O_EXCL`) and leaves the filesystem state — in particular the existing
object's content — unchanged; and a `Save` that succeeds was performed on
a filename with no prior object and stores exactly the reader's bytes
there. -/
theorem C5_save_never_mutates :
    (∀ (ctx : GoCtx) (b : Pcloud) (h : Handle) (rd : List Nat) (st : FS),
       st.hasFile (b.Filename h) = true →
       (pcloudSave ctx b h rd st).1.isSome = true ∧ (pcloudSave ctx b h rd st).2 = st) ∧
    (∀ (ctx : GoCtx) (b : Pcloud) (h : Handle) (rd : List Nat) (st : FS),
       (pcloudSave ctx b h rd st).1 = none →
       st.hasFile (b.Filename h) = false ∧
       (pcloudSave ctx b h rd st).2.lookupFile (b.Filename h) = some rd) := by
  constructor
  · intro ctx b h rd st hex
    cases hv : h.Valid with
    | some e => simp [pcloudSave, hv]
    | none => simp [pcloudSave, hv, hex]
  · intro ctx b h rd st hok
    cases hv : h.Valid with
    | some e => simp [pcloudSave, hv] at hok
    | none =>
      cases hex : st.hasFile (b.Filename h) with
      | true => simp [pcloudSave, hv, hex] at hok
      | false =>
        refine ⟨rfl, ?_⟩
        by_cases hdir : st.hasDir (dirOf (b.Filename h))
        · simp [pcloudSave, hv, hex, hdir, FS.lookupFile_addFile]
        · simp [pcloudSave, hv, hex, hdir, FS.lookupFile_addFile]

theorem C5_witness :
    ((pcloudSave backgroundCtx repoBackend hX [9] fsTwoFiles).1.isSome = true ∧
      (pcloudSave backgroundCtx repoBackend hX [9] fsTwoFiles).2 = fsTwoFiles) ∧
    (fsEmptyRepo.hasFile (repoBackend.Filename hX) = false ∧
      (pcloudSave backgroundCtx repoBackend hX [9] fsEmptyRepo).2.lookupFile
        (repoBackend.Filename hX) = some [9]) :=
  ⟨C5_save_never_mutates.1 backgroundCtx repoBackend hX [9] fsTwoFiles (by decide),
   C5_save_never_mutates.2 backgroundCtx repoBackend hX [9] fsEmptyRepo (by decide)⟩

/-- C4: `Create(cfg)` fails whenever an object already exists at the
layout's config filename (`fs.Lstat` succeeding there), and in that case
the filesystem state is unchanged: none of the repository directories is
created. -/
theorem C4_create_fails_on_existing_config (cfg : Config) (st : FS) (l : PcloudLayout)
    (hl : ParseLayout cfg.Layout cfg.Path = Except.ok l)
    (hex : st.pathExists (l.Filename { «Type» := FileType.ConfigFile, Name := "" }) = true) :
    (pcloudCreate cfg st).1.isOk = false ∧ (pcloudCreate cfg st).2 = st := by
  unfold pcloudCreate
  rw [hl]
  simp [Pcloud.Filename, hex, Except.isOk, Except.toBool]

/-- The configuration `Create` is exercised at in the C4 witness. -/
def cfgRepo : Config := { NewConfig with Path := "repo" }

/-- Repository state where the config object already exists. -/
def fsWithConfig : FS := { files := [("repo/config", [42])], dirs := [] }

theorem C4_witness :
    (pcloudCreate cfgRepo fsWithConfig).1.isOk = false ∧
    (pcloudCreate cfgRepo fsWithConfig).2 = fsWithConfig :=
  C4_create_fails_on_existing_config cfgRepo fsWithConfig repoLayout rfl (by decide)

/-- Repository state with a file sitting exactly at the filename the
invalid handle `hNoName` maps to (`repo/data`). -/
def fsFileAtDataPath : FS := { files := [("repo/data", [0])], dirs := [] }

/-- C2 counterexample: with an invalid handle (empty name, type Data),
`Test` performs its storage lookup and returns no error at all, and
`Remove` performs its storage effect — it removes the object at the
derived filename and succeeds — so neither fails with an error before
storage access, refuting the claim for these operations. -/
theorem C2_counterexample :
    (pcloudTest backgroundCtx repoBackend hNoName fsEmptyRepo).2 = none ∧
    (pcloudRemove backgroundCtx repoBackend hNoName fsFileAtDataPath).1 = none ∧
    (pcloudRemove backgroundCtx repoBackend hNoName fsFileAtDataPath).2 ≠ fsFileAtDataPath := by
  refine ⟨by decide, by decide, by decide⟩

/-- C2 (amended): `Save`, `Load` and `Stat` validate the handle and fail
with the validation error before any storage access — their result does
not depend on the filesystem state, which is left unchanged; `Test` and
`Remove` perform no handle validation and proceed to storage access (Test
reports existence with no error, Remove removes an existing object). -/
theorem C2_amended_only_save_load_stat_validate :
    ∀ (b : Pcloud) (h : Handle), h.«Type» ≠ FileType.ConfigFile → h.Name = "" →
      (∀ ctx rd st, pcloudSave ctx b h rd st = (some (GoError.msg "invalid Name"), st)) ∧
      (∀ ctx len off st,
         pcloudLoad ctx b h len off st = Except.error (GoError.msg "invalid Name")) ∧
      (∀ ctx st,
         pcloudStat ctx b h st = ({ Size := 0, Name := "" }, some (GoError.msg "invalid Name"))) ∧
      (∀ ctx st, pcloudTest ctx b h st = (st.hasFile (b.Filename h), none)) ∧
      (∀ ctx st, st.hasFile (b.Filename h) = true →
         pcloudRemove ctx b h st = (none, st.removeFile (b.Filename h))) := by
  intro b h htype hname
  have hv : h.Valid = some (GoError.msg "invalid Name") := by
    simp [Handle.Valid, htype, hname]
  refine ⟨?_, ?_, ?_, ?_, ?_⟩
  · intro ctx rd st; simp [pcloudSave, hv]
  · intro ctx len off st; simp [pcloudLoad, hv]
  · intro ctx st; simp [pcloudStat, hv]
  · intro ctx st
    unfold pcloudTest FS.hasFile
    cases st.lookupFile (b.Filename h) <;> simp
  · intro ctx st hex; simp [pcloudRemove, hex]

theorem C2_witness :
    pcloudSave backgroundCtx repoBackend hNoName [1] fsEmptyRepo =
      (some (GoError.msg "invalid Name"), fsEmptyRepo) ∧
    pcloudStat backgroundCtx repoBackend hNoName fsEmptyRepo =
      ({ Size := 0, Name := "" }, some (GoError.msg "invalid Name")) :=
  ⟨(C2_amended_only_save_load_stat_validate repoBackend hNoName (by decide) (by decide)).1
      backgroundCtx [1] fsEmptyRepo,
   (C2_amended_only_save_load_stat_validate repoBackend hNoName (by decide) (by decide)).2.2.1
      backgroundCtx fsEmptyRepo⟩

/-- C1 counterexample: with a context whose cancellation signal is already
set, `Save` returns no error at all and performs its effect (the
filesystem state changes), refuting the claim that every backend
operation returns a cancellation error instead of performing its effect. -/
theorem C1_counterexample :
    (pcloudSave canceledCtx repoBackend hX [1, 2, 3] fsEmptyRepo).1 = none ∧
    (pcloudSave canceledCtx repoBackend hX [1, 2, 3] fsEmptyRepo).2 ≠ fsEmptyRepo := by
  refine ⟨by decide, by decide⟩

/-- C1 (amended): `Save`, `Load`, `Stat`, `Test` and `Remove` never
consult the context — an already-set cancellation signal changes nothing
about their behaviour; only `List` observes cancellation, returning the
context's error before invoking the visitor on any file, provided the walk
reaches at least one file. -/
theorem C1_amended_only_list_checks_cancellation :
    (∀ ctx ctx' b h rd st, pcloudSave ctx b h rd st = pcloudSave ctx' b h rd st) ∧
    (∀ ctx ctx' b h len off st, pcloudLoad ctx b h len off st = pcloudLoad ctx' b h len off st) ∧
    (∀ ctx ctx' b h st, pcloudStat ctx b h st = pcloudStat ctx' b h st) ∧
    (∀ ctx ctx' b h st, pcloudTest ctx b h st = pcloudTest ctx' b h st) ∧
    (∀ ctx ctx' b h st, pcloudRemove ctx b h st = pcloudRemove ctx' b h st) ∧
    (∀ (ctx : GoCtx) (b : Pcloud) (t : FileType) (fn : FileInfo → Option GoError)
       (st : FS) (e : GoError),
       ctx.err = some e →
       st.hasDir (b.Layout.Basedir t).1 = true →
       walkFiles st (b.Layout.Basedir t).1 ≠ [] →
       pcloudList ctx b t fn st = (some e, [])) := by
  refine ⟨fun _ _ _ _ _ _ => rfl, fun _ _ _ _ _ _ _ => rfl, fun _ _ _ _ _ => rfl,
    fun _ _ _ _ _ => rfl, fun _ _ _ _ _ => rfl, ?_⟩
  intro ctx b t fn st e hctx hdir hne
  simp only [pcloudList, hdir, if_true]
  cases hw : walkFiles st (b.Layout.Basedir t).1 with
  | nil => exact absurd hw hne
  | cons y ys => simp [pcloudListGo, hctx]

theorem C1_witness :
    pcloudList canceledCtx repoBackend FileType.DataFile (fun _ => none) fsTwoFiles =
      (some GoError.canceled, []) ∧
    pcloudSave canceledCtx repoBackend hX [9] fsTwoFiles =
      pcloudSave backgroundCtx repoBackend hX [9] fsTwoFiles :=
  ⟨C1_amended_only_list_checks_cancellation.2.2.2.2.2 canceledCtx repoBackend
      FileType.DataFile (fun _ => none) fsTwoFiles GoError.canceled rfl (by decide) (by decide),
   C1_amended_only_list_checks_cancellation.1 canceledCtx backgroundCtx repoBackend hX
      [9] fsTwoFiles⟩

theorem pcloudListGo_stops_at_first_error (ctx : GoCtx) (fn : FileInfo → Option GoError)
    (hctx : ctx.err = none) :
    ∀ (pre : List (String × List Nat)) (x : String × List Nat)
      (post : List (String × List Nat)) (e : GoError),
      (∀ y ∈ pre, fn (walkInfo y) = none) → fn (walkInfo x) = some e →
      pcloudListGo ctx fn (pre ++ x :: post) = (some e, pre.map walkInfo ++ [walkInfo x]) := by
  intro pre
  induction pre with
  | nil =>
    intro x post e _ hx
    simp [pcloudListGo, hctx, hx]
  | cons y ys ih =>
    intro x post e hpre hx
    have hy : fn (walkInfo y) = none := hpre y (by simp)
    have hys : ∀ z ∈ ys, fn (walkInfo z) = none := fun z hz => hpre z (by simp [hz])
    simp [pcloudListGo, hctx, hy, ih x post e hys hx]

/-- C6: `List` stops early: when the context is live and the visitor `fn`
accepts every file before `x` in walk order but fails on `x` with error
`e`, `List` returns exactly `e` and the visitor has been invoked exactly
on the files up to and including `x` — no later file; and when the
context's cancellation signal is set and the walk reaches at least one
file, `List` returns the cancellation error having invoked the visitor on
no file at all. -/
theorem C6_list_stops_early :
    (∀ (ctx : GoCtx) (b : Pcloud) (t : FileType) (fn : FileInfo → Option GoError)
       (st : FS) (pre : List (String × List Nat)) (x : String × List Nat)
       (post : List (String × List Nat)) (e : GoError),
       ctx.err = none →
       st.hasDir (b.Layout.Basedir t).1 = true →
       walkFiles st (b.Layout.Basedir t).1 = pre ++ x :: post →
       (∀ y ∈ pre, fn (walkInfo y) = none) →
       fn (walkInfo x) = some e →
       pcloudList ctx b t fn st = (some e, pre.map walkInfo ++ [walkInfo x])) ∧
    (∀ (ctx : GoCtx) (b : Pcloud) (t : FileType) (fn : FileInfo → Option GoError)
       (st : FS) (e : GoError),
       ctx.err = some e →
       st.hasDir (b.Layout.Basedir t).1 = true →
       walkFiles st (b.Layout.Basedir t).1 ≠ [] →
       pcloudList ctx b t fn st = (some e, [])) := by
  constructor
  · intro ctx b t fn st pre x post e hctx hdir hwalk hpre hx
    simp only [pcloudList, hdir, if_true]
    rw [hwalk]
    exact pcloudListGo_stops_at_first_error ctx fn hctx pre x post e hpre hx
  · intro ctx b t fn st e hctx hdir hne
    simp only [pcloudList, hdir, if_true]
    cases hw : walkFiles st (b.Layout.Basedir t).1 with
    | nil => exact absurd hw hne
    | cons y ys => simp [pcloudListGo, hctx]

/-- The visitor used by the C6 witness: fails on the file named `x`. -/
def failOnX (fi : FileInfo) : Option GoError :=
  if fi.Name = "x" then some (GoError.msg "boom") else none

theorem C6_witness :
    pcloudList backgroundCtx repoBackend FileType.DataFile failOnX fsTwoFiles =
      (some (GoError.msg "boom"),
        [{ Size := 1, Name := "a" }, { Size := 3, Name := "x" }]) ∧
    pcloudList canceledCtx repoBackend FileType.DataFile failOnX fsTwoFiles =
      (some GoError.canceled, []) :=
  ⟨C6_list_stops_early.1 backgroundCtx repoBackend FileType.DataFile failOnX fsTwoFiles
      [("repo/data/a", [7])] ("repo/data/x", [1, 2, 3]) [] (GoError.msg "boom")
      rfl (by decide) (by decide) (by decide) (by decide),
   C6_list_stops_early.2 canceledCtx repoBackend FileType.DataFile failOnX fsTwoFiles
      GoError.canceled rfl (by decide) (by decide)⟩

theorem splitSl_ne_nil (l : List Char) : splitSl l ≠ [] := by
  induction l with
  | nil => simp [splitSl]
  | cons c cs ih =>
    simp only [splitSl]
    split
    · simp
    · split
      · simp
      · simp

theorem splitSl_cons_slash (cs : List Char) : splitSl ('/' :: cs) = [] :: splitSl cs := by
  simp [splitSl]

theorem splitSl_cons_ne (c : Char) (cs : List Char) (h : c ≠ '/') (s : List Char)
    (ss : List (List Char)) (hss : splitSl cs = s :: ss) :
    splitSl (c :: cs) = (c :: s) :: ss := by
  simp [splitSl, h, hss]

theorem splitSl_append (a b : List Char) :
    splitSl (a ++ '/' :: b) = splitSl a ++ splitSl b := by
  induction a with
  | nil => rw [List.nil_append, splitSl_cons_slash]; simp [splitSl]
  | cons c cs ih =>
    by_cases hc : c = '/'
    · subst hc
      rw [List.cons_append, splitSl_cons_slash, splitSl_cons_slash, ih]
      simp
    · obtain ⟨s, ss, hss⟩ : ∃ s ss, splitSl cs = s :: ss := by
        cases hcs : splitSl cs with
        | nil => exact absurd hcs (splitSl_ne_nil cs)
        | cons s ss => exact ⟨s, ss, rfl⟩
      rw [List.cons_append,
        splitSl_cons_ne c (cs ++ '/' :: b) hc s (ss ++ splitSl b) (by rw [ih, hss]; simp),
        splitSl_cons_ne c cs hc s ss hss]
      simp

theorem joinChars_append_last (xs : List (List Char)) (c : List Char) :
    ∃ t, joinChars (xs ++ [c]) = t ++ c := by
  induction xs with
  | nil => exact ⟨[], by simp [joinChars]⟩
  | cons x xs ih =>
    cases xs with
    | nil => exact ⟨x ++ ['/'], by simp [joinChars]⟩
    | cons y ys =>
      obtain ⟨t, ht⟩ := ih
      refine ⟨x ++ '/' :: t, ?_⟩
      have hstep : joinChars ((x :: y :: ys) ++ [c]) = x ++ '/' :: joinChars ((y :: ys) ++ [c]) := by
        simp only [List.cons_append]
        rfl
      rw [hstep, ht]
      simp

theorem cleanStepChars_push (r : Bool) (st : List (List Char)) (seg : List Char)
    (h : seg ≠ ['.', '.']) : cleanStepChars r st seg = seg :: st := by
  simp [cleanStepChars, h]

theorem cleanChars_ends_config (l : List Char) (S : List (List Char))
    (hS : splitSl l = S ++ ["config".data]) :
    ∃ t, cleanChars l = t ++ "config".data := by
  simp only [cleanChars]
  rw [hS, List.filter_append]
  have h1 : List.filter (fun s => !s.isEmpty && !(s = ['.'] : Bool)) ["config".data]
      = ["config".data] := by decide
  rw [h1, List.foldl_append]
  simp only [List.foldl_cons, List.foldl_nil]
  rw [cleanStepChars_push _ _ _ (by decide)]
  simp only [List.isEmpty_cons]
  obtain ⟨t, ht⟩ := joinChars_append_last
      (List.reverse (List.foldl (cleanStepChars (decide (l.head? = some '/'))) []
        (List.filter (fun s => !s.isEmpty && !(s = ['.'] : Bool)) S))) "config".data
  refine ⟨(if (decide (l.head? = some '/')) = true then ['/'] else []) ++ t, ?_⟩
  rw [List.reverse_cons] at *
  simp only [Bool.false_eq_true, if_false]
  rw [ht, List.append_assoc]

theorem goPathJoin_config_ends (path : String) :
    ∃ t, goPathJoin [path, "/", "", "config"] = t ++ "config" := by
  by_cases hp : path = ""
  · subst hp
    exact ⟨"/", by decide⟩
  · have hdrop : [path, "/", "", "config"].dropWhile (fun e => (e = "" : Bool))
        = [path, "/", "", "config"] := by
      rw [List.dropWhile_cons_of_neg]
      simp [hp]
    simp only [goPathJoin]
    rw [hdrop]
    simp only [List.isEmpty_cons, Bool.false_eq_true, if_false]
    have hjoin : joinChars ([path, "/", "", "config"].map String.data)
        = path.data ++ '/' :: ('/' :: '/' :: '/' :: "config".data) := by
      simp only [List.map_cons, List.map_nil]
      rfl
    rw [hjoin]
    have hsplit : splitSl (path.data ++ '/' :: ('/' :: '/' :: '/' :: "config".data))
        = (splitSl path.data ++ [[], [], []]) ++ ["config".data] := by
      rw [splitSl_append]
      have h3 : splitSl ('/' :: '/' :: '/' :: "config".data)
          = [[], [], []] ++ ["config".data] := by decide
      rw [h3, List.append_assoc]
    obtain ⟨t, ht⟩ := cleanChars_ends_config _ _ hsplit
    rw [ht]
    exact ⟨String.mk t, String.ext (by simp [String.data_append])⟩

/-- C7: `Filename` is a pure, deterministic function of the layout's
fields `(URL, Path, Join)` and the handle: equal fields and equal handles
give equal path strings; for a Config handle the name is ignored (any two
names give the same filename), and with the modelled Go join the filename
always ends in the fixed name `config`. -/
theorem C7_filename_pure_and_config_fixed :
    (∀ (l1 l2 : PcloudLayout) (h1 h2 : Handle),
       l1.URL = l2.URL → l1.Path = l2.Path → l1.Join = l2.Join → h1 = h2 →
       l1.Filename h1 = l2.Filename h2) ∧
    (∀ (l : PcloudLayout) (n nn : String),
       l.Filename { «Type» := FileType.ConfigFile, Name := n } =
         l.Filename { «Type» := FileType.ConfigFile, Name := nn }) ∧
    (∀ (url path n : String), ∃ t,
       PcloudLayout.Filename { URL := url, Path := path, Join := goPathJoin }
         { «Type» := FileType.ConfigFile, Name := n } = t ++ "config") := by
  refine ⟨?_, ?_, ?_⟩
  · intro l1 l2 h1 h2 hu hp hj hh
    cases l1; cases l2
    simp only at hu hp hj
    subst hu; subst hp; subst hj; subst hh
    rfl
  · intro l n nn
    rfl
  · intro url path n
    obtain ⟨t, ht⟩ := goPathJoin_config_ends path
    refine ⟨url ++ t, ?_⟩
    show url ++ goPathJoin [path, "/", "", "config"] = url ++ t ++ "config"
    rw [ht]
    exact String.ext (by simp [String.data_append])

theorem C7_witness :
    repoLayout.Filename hX =
      PcloudLayout.Filename { URL := "", Path := "repo", Join := goPathJoin } hX ∧
    (∃ t, PcloudLayout.Filename { URL := "", Path := "repo", Join := goPathJoin }
        { «Type» := FileType.ConfigFile, Name := "zzz" } = t ++ "config") :=
  ⟨C7_filename_pure_and_config_fixed.1 repoLayout
      { URL := "", Path := "repo", Join := goPathJoin } hX hX rfl rfl rfl rfl,
   C7_filename_pure_and_config_fixed.2.2 "" "repo" "zzz"⟩

theorem splitOnceColon_eq : ∀ (l a r : List Char),
    splitOnceColon l = some (a, r) → l = a ++ ':' :: r := by
  intro l
  induction l with
  | nil => intro a r h; simp [splitOnceColon] at h
  | cons c cs ih =>
    intro a r h
    by_cases hc : c = ':'
    · subst hc
      simp [splitOnceColon] at h
      obtain ⟨ha, hr⟩ := h
      subst ha; subst hr
      simp
    · simp [splitOnceColon, hc, Option.map_eq_some'] at h
      obtain ⟨a1, hsp, ha⟩ := h
      subst ha
      simp [ih a1 r hsp]

theorem goSplitN3_three (l u p pa : List Char) (h : goSplitN3 l = [u, p, pa]) :
    l = u ++ ':' :: (p ++ ':' :: pa) := by
  cases h1 : splitOnceColon l with
  | none => simp [goSplitN3, h1] at h
  | some pr =>
    obtain ⟨a, r⟩ := pr
    cases h2 : splitOnceColon r with
    | none => simp [goSplitN3, h1, h2] at h
    | some pr2 =>
      obtain ⟨b, c⟩ := pr2
      have hval : goSplitN3 l = [a, b, c] := by simp [goSplitN3, h1, h2]
      rw [hval] at h
      simp only [List.cons.injEq, and_true] at h
      obtain ⟨hu, hp, hpa⟩ := h
      subst hu; subst hp; subst hpa
      rw [splitOnceColon_eq l a r h1, splitOnceColon_eq r b c h2]

/-- C10 counterexample: on the input `pcloud:u:p:x`, accepted by both
variants, the first variant's Path is `x` (the third colon-field) while
the second variant's Path is `:u:p:x` (everything from byte 6 on), so the
two Path fields are not equal. -/
theorem C10_counterexample :
    ParseConfig "pcloud:u:p:x" =
      Except.ok { NewConfig with UserName := "u", Password := "p", Path := "x" } ∧
    ParseConfig2 "pcloud:u:p:x" = Except.ok { Path := ":u:p:x", Layout := "" } ∧
    ({ NewConfig with UserName := "u", Password := "p", Path := "x" } : Config).Path ≠
      ({ Path := ":u:p:x", Layout := "" } : Config2).Path := by
  refine ⟨by decide, by decide, by decide⟩

/-- C10 (amended): on the common domain the two variants disagree instead
of agreeing: variant 2's Path is the whole remainder after the 6-byte
prefix `pcloud` — a colon followed by all three fields — while variant 1's
Path is only the third field, and for every input accepted by both the
two Path fields differ. -/
theorem C10_amended_variants_disagree (s : String) (c1 : Config) (c2 : Config2)
    (h1 : ParseConfig s = Except.ok c1) (h2 : ParseConfig2 s = Except.ok c2) :
    c2.Path = String.mk (':' :: s.data.drop 7) ∧ c1.Path ≠ c2.Path := by
  unfold ParseConfig at h1
  unfold ParseConfig2 at h2
  by_cases hpre : "pcloud:".data.isPrefixOf s.data
  case neg =>
    rw [if_neg hpre] at h1
    cases h1
  case pos =>
    rw [if_pos hpre] at h1
    rw [if_pos hpre] at h2
    obtain ⟨rest, hrest⟩ := List.isPrefixOf_iff_prefix.mp hpre
    have hdrop7 : s.data.drop 7 = rest := by
      rw [← hrest]
      exact List.drop_left "pcloud:".data rest
    have hdrop6 : s.data.drop 6 = ':' :: rest := by
      rw [← hrest]
      rfl
    have hc2 : c2.Path = String.mk (':' :: rest) := by
      rw [← hdrop6]
      injection h2 with h2'
      rw [← h2']
    refine ⟨by rw [hc2, hdrop7], ?_⟩
    cases hsp : goSplitN3 (s.data.drop 7) with
    | nil => rw [hsp] at h1; simp at h1
    | cons u t1 =>
      cases t1 with
      | nil => rw [hsp] at h1; simp at h1
      | cons p t2 =>
        cases t2 with
        | nil => rw [hsp] at h1; simp at h1
        | cons pa t3 =>
          cases t3 with
          | cons w t4 => rw [hsp] at h1; simp at h1
          | nil =>
            rw [hsp] at h1
            simp only [Except.ok.injEq] at h1
            have hc1 : c1.Path = String.mk pa := by rw [← h1]
            have hshape := goSplitN3_three (s.data.drop 7) u p pa hsp
            rw [hdrop7] at hshape
            intro heq
            rw [hc1, hc2] at heq
            have hdata : pa = ':' :: rest := congrArg String.data heq
            have hlen : pa.length = (':' :: rest).length := by rw [hdata]
            rw [hshape] at hlen
            simp [List.length_append] at hlen
            omega

theorem C10_witness :
    (({ Path := ":u:p:x", Layout := "" } : Config2).Path =
        String.mk (':' :: "pcloud:u:p:x".data.drop 7)) ∧
    ({ NewConfig with UserName := "u", Password := "p", Path := "x" } : Config).Path ≠
      ({ Path := ":u:p:x", Layout := "" } : Config2).Path :=
  C10_amended_variants_disagree "pcloud:u:p:x"
    { NewConfig with UserName := "u", Password := "p", Path := "x" }
    { Path := ":u:p:x", Layout := "" } (by decide) (by decide)
